import Mathlib

/-!
Verification development for the Nanoedit generation pipeline and job queue.

The definitions below are a shallow embedding of the TypeScript source:
* `src/services/geminiService.ts` — image preprocessor (`resizeBase64Image`)
  and gateway request builder / response decoder (`editImageWithGemini`);
* `src/App.tsx` — the job-queue scheduler (`processNextItems`, `addToQueue`,
  `cancelQueueItem`, `retryQueueItem`) modelled as a step relation on an
  application state.

Machine strings are Lean `String`s; JS arrays are Lean `List`s; the union
types of `types.ts` (`'1K' | '2K' | '4K'`, `'flash' | 'pro'`,
`'pending' | 'processing' | 'failed'`) are inductives.
-/

namespace Nanoedit

/-- `resolution: '1K' | '2K' | '4K'` from `EditorSettings` in `types.ts`. -/
inductive Resolution where
  | r1K
  | r2K
  | r4K
deriving DecidableEq, Repr

/-- `modelType: 'flash' | 'pro'` from `EditorSettings` in `types.ts`. -/
inductive ModelType where
  | flash
  | pro
deriving DecidableEq, Repr

/-- The string value of a resolution, as it appears in the TS union type. -/
def Resolution.str : Resolution → String
  | .r1K => "1K"
  | .r2K => "2K"
  | .r4K => "4K"

/-- `EditorSettings` from `types.ts`. -/
structure EditorSettings where
  aspectRatio : String
  resolution : Resolution
  modelType : ModelType
  style : String
  cameraAngle : String
deriving DecidableEq, Repr

/-- `status: 'pending' | 'processing' | 'failed'` from `QueueItem`. -/
inductive Status where
  | pending
  | processing
  | failed
deriving DecidableEq, Repr

/-- `QueueItem` from `types.ts`: one enqueued generation job. -/
structure QueueItem where
  id : String
  prompt : String
  settings : EditorSettings
  sourceImages : List String
  status : Status
  timestamp : Nat
  error : Option String
deriving DecidableEq, Repr

/-- `GeneratedImage` from `types.ts`: one output image in the results. -/
structure GeneratedImage where
  id : String
  url : String
  prompt : String
  timestamp : Nat
deriving DecidableEq, Repr

/-! ## Image preprocessor: `resizeBase64Image` (geminiService.ts lines 6–67)

The input string is abstracted to its observable features: its `.length`
(the byte-size short-circuit compares `base64Str.length < 50000`) and the
result of decoding it through an `Image` element — `none` when `img.onerror`
fires, `some (width, height)` when `img.onload` fires. -/

/-- One encoded input image as the preprocessor observes it:
its string length and its decode outcome (`none` = decode failure). -/
structure ImageInput where
  length : Nat
  decode : Option (Nat × Nat)

/-- Outcome of `resizeBase64Image`: the promise always resolves, either with
the input string returned unchanged (`original`) or with a canvas JPEG
re-encode at quality 0.7 and the given pixel dimensions (`resized`). -/
inductive ResizeOutput where
  | original
  | resized (width height : Nat)
deriving DecidableEq, Repr

/-- JavaScript `Math.round (a / b)` for natural `a`, positive natural `b`:
`⌊(a / b) + 1/2⌋`, ties rounding up. -/
def jsRound (a b : Nat) : Nat := (2 * a + b) / (2 * b)

/-- Shallow embedding of `resizeBase64Image` (geminiService.ts lines 6–67).
`inBrowser` models `typeof window !== 'undefined'`; `ctx2d` models
`canvas.getContext('2d')` returning non-null. Every branch of the source
resolves the promise; no branch rejects, so the result type is plain
`ResizeOutput`. -/
def resizeBase64Image (inBrowser ctx2d : Bool) (img : ImageInput)
    (maxWidth : Nat := 1024) : ResizeOutput :=
  if inBrowser = false then .original
  else if img.length < 50000 then .original
  else
    match img.decode with
    | none => .original
    | some (w, h) =>
      if w ≤ maxWidth ∧ h ≤ maxWidth then .original
      else
        let dims :=
          if w > h then
            if w > maxWidth then (maxWidth, jsRound (h * maxWidth) w) else (w, h)
          else
            if h > maxWidth then (jsRound (w * maxWidth) h, maxWidth) else (w, h)
        if ctx2d then .resized dims.1 dims.2 else .original

/-! ## Request builder (geminiService.ts lines 83–172) -/

/-- Model-tier predicate (geminiService.ts line 88):
`settings.resolution === '2K' || settings.resolution === '4K' || settings.modelType === 'pro'`. -/
def isPro (settings : EditorSettings) : Bool :=
  settings.resolution = .r2K ∨ settings.resolution = .r4K ∨ settings.modelType = .pro

/-- Chosen model name (geminiService.ts lines 85–91). -/
def modelName (settings : EditorSettings) : String :=
  if isPro settings then "gemini-3-pro-image-preview" else "gemini-2.5-flash-image"

/-- The request `config` object (geminiService.ts lines 95–105):
`imageSize` is set only when the Pro model was selected. -/
structure RequestConfig where
  responseModalities : List String
  aspectRatio : String
  imageSize : Option String
deriving DecidableEq, Repr

/-- Builds the request config (geminiService.ts lines 95–105). -/
def buildConfig (settings : EditorSettings) : RequestConfig :=
  let base : RequestConfig :=
    { responseModalities := ["TEXT", "IMAGE"]
      aspectRatio := settings.aspectRatio
      imageSize := none }
  if modelName settings = "gemini-3-pro-image-preview" then
    { base with imageSize := some settings.resolution.str }
  else base

/-- A content part of the request (geminiService.ts `parts` array):
either an inline image (`data`, `mimeType`) or the final text prompt. -/
inductive Part where
  | inlineImage (data : String) (mimeType : String)
  | text (t : String)
deriving DecidableEq, Repr

/-- Drops `p` from the front of `s`, or `none` when `p` is not a prefix. -/
def dropPrefixChars : List Char → List Char → Option (List Char)
  | [], rest => some rest
  | _ :: _, [] => none
  | p :: ps, c :: cs => if c = p then dropPrefixChars ps cs else none

/-- Whether `p` is a prefix of `s` (char-list level). -/
def isPrefixChars (p s : List Char) : Bool :=
  (dropPrefixChars p s).isSome

/-- Embedding of the regex match
`base64Image.match(/^data:(image\/[a-zA-Z]+);base64,/)` (line 124):
returns the captured media type, or `none` when the header does not match. -/
def parseMimeChars (s : List Char) : Option (List Char) :=
  match dropPrefixChars "data:image/".data s with
  | none => none
  | some rest =>
    let letters := rest.takeWhile Char.isAlpha
    if letters ≠ [] ∧ isPrefixChars ";base64,".data (rest.drop letters.length)
    then some ("image/".data ++ letters)
    else none

/-- String-level wrapper for `parseMimeChars`. -/
def parseMime (s : String) : Option String :=
  (parseMimeChars s.data).map fun l => String.mk l

/-- Embedding of
`base64Image.replace(/^data:image\/(png|jpeg|jpg|webp);base64,/, '')`
(line 121): strips a recognised data-URL header, else returns the string. -/
def stripHeaderChars (s : List Char) : List Char :=
  match dropPrefixChars "data:image/png;base64,".data s with
  | some r => r
  | none =>
    match dropPrefixChars "data:image/jpeg;base64,".data s with
    | some r => r
    | none =>
      match dropPrefixChars "data:image/jpg;base64,".data s with
      | some r => r
      | none =>
        match dropPrefixChars "data:image/webp;base64,".data s with
        | some r => r
        | none => s

/-- String-level wrapper for `stripHeaderChars`. -/
def stripHeader (s : String) : String := String.mk (stripHeaderChars s.data)

/-- One processed image becomes one inline part (geminiService.ts
lines 119–133): data = header-stripped base64, mimeType = parsed header
media type, defaulting to `image/jpeg`. -/
def mkInlinePart (base64Image : String) : Part :=
  .inlineImage (stripHeader base64Image) ((parseMime base64Image).getD "image/jpeg")

/-- The inline attachments built from the processed images (lines 112–133). -/
def buildImageParts (processedImages : List String) : List Part :=
  processedImages.map mkInlinePart

/-- The style/camera modifier clauses (geminiService.ts lines 153–161).
JS truthiness: the empty string is falsy, so `settings.style &&
settings.style !== 'None'` requires a nonempty, non-"None" value. -/
def modifiers (settings : EditorSettings) : List String :=
  (if settings.style ≠ "" ∧ settings.style ≠ "None"
   then ["in " ++ settings.style ++ " style"] else []) ++
  (if settings.cameraAngle ≠ "" ∧ settings.cameraAngle ≠ "None"
   then ["shot from " ++ settings.cameraAngle] else [])

/-- `modifiers.join(', ')` (geminiService.ts line 168). -/
def joinComma : List String → String
  | [] => ""
  | [x] => x
  | x :: y :: xs => x ++ ", " ++ joinComma (y :: xs)

/-- The final prompt text (geminiService.ts lines 152–169). -/
def finalPrompt (prompt : String) (settings : EditorSettings) : String :=
  if modifiers settings = [] then prompt
  else prompt ++ ", " ++ joinComma (modifiers settings)

/-- The full ordered content of the request (lines 108–172): image parts
first, then always exactly one trailing text part. -/
def buildParts (processedImages : List String) (prompt : String)
    (settings : EditorSettings) : List Part :=
  buildImageParts processedImages ++ [.text (finalPrompt prompt settings)]

/-! ## Gateway response decoding (geminiService.ts lines 183–221) -/

/-- One part of the remote response: optional inline image data and
optional text.  `inlineData = some ""` covers both an absent `data`
field and an empty one (both falsy in the source's guard). -/
structure ResponsePart where
  inlineData : Option String
  text : Option String

/-- One iteration of the loop over
`response.candidates[0].content.parts` (lines 187–194): a part with
truthy inline data pushes an image data-URL, else truthy text is
concatenated onto the running text output. -/
def collectStep (acc : List String × String) (part : ResponsePart) :
    List String × String :=
  match part.inlineData with
  | some d =>
    if d ≠ "" then (acc.1 ++ ["data:image/png;base64," ++ d], acc.2)
    else match part.text with
      | some t => if t ≠ "" then (acc.1, acc.2 ++ t) else acc
      | none => acc
  | none =>
    match part.text with
    | some t => if t ≠ "" then (acc.1, acc.2 ++ t) else acc
    | none => acc

/-- The full loop (lines 183–195): collects image data-URLs in response
order and concatenates text parts. -/
def collectOutputs (parts : List ResponsePart) : List String × String :=
  parts.foldl collectStep ([], "")

/-- Decode step (lines 183–201): a response with neither images nor text
throws `"No image generated."`; otherwise the images and text are returned.
`parts? = none` models a response with no candidates or no content parts. -/
def decodeResponse (parts? : Option (List ResponsePart)) :
    Except String (List String × String) :=
  let out := match parts? with
    | some ps => collectOutputs ps
    | none => ([], "")
  if out.1.length = 0 ∧ out.2 = "" then .error "No image generated."
  else .ok out

/-- Whether `pat` occurs as a contiguous substring of `s` (char lists). -/
def containsChars (pat : List Char) : List Char → Bool
  | [] => isPrefixChars pat []
  | c :: cs => isPrefixChars pat (c :: cs) || containsChars pat cs

/-- `errMsg.includes(pat)` from the catch handler. -/
def includesSub (s pat : String) : Bool := containsChars pat.data s.data

/-- The catch-handler error classification (geminiService.ts lines 203–221). -/
def classifyError (errMsg : String) : String :=
  if includesSub errMsg "500" then
    "Server Error (500). The image might be too complex or the server is busy. Try again."
  else if includesSub errMsg "Load failed" ∨ includesSub errMsg "Failed to fetch"
      ∨ includesSub errMsg "NetworkError" then
    "Network error. Check your internet connection and try again."
  else if includesSub errMsg "401" ∨ includesSub errMsg "403"
      ∨ includesSub errMsg "API key" then
    "API key invalid or expired. Please reconnect your API key."
  else if includesSub errMsg "429" ∨ includesSub errMsg "quota" then
    "Rate limit exceeded. Wait a moment and try again."
  else if errMsg ≠ "" then errMsg
  else "Failed to generate image"

/-- The decode wrapped in the try/catch: a throw from the empty-result
check is re-thrown through `classifyError` (lines 197–221). -/
def gatewayDecode (parts? : Option (List ResponsePart)) :
    Except String (List String × String) :=
  match decodeResponse parts? with
  | .ok r => .ok r
  | .error e => .error (classifyError e)

/-- Whether a part contributes an image: the guard
`part.inlineData && part.inlineData.data` (line 188). -/
def isImagePart (p : ResponsePart) : Bool :=
  match p.inlineData with
  | some d => d ≠ ""
  | none => false

/-- The text a part contributes through the else-if branch (line 191). -/
def textContrib (p : ResponsePart) : String :=
  if isImagePart p then ""
  else match p.text with
    | some t => t
    | none => ""

/-- The image data-URLs of a response, in response order. -/
def imageUrls : List ResponsePart → List String
  | [] => []
  | p :: ps =>
    (if isImagePart p then ["data:image/png;base64," ++ p.inlineData.getD ""]
     else []) ++ imageUrls ps

/-- The concatenation of the text parts of a response, in response order. -/
def textsOf : List ResponsePart → String
  | [] => ""
  | p :: ps => textContrib p ++ textsOf ps

/-! ## Job queue scheduler (App.tsx)

React state relevant to the claims: `queue`, `generatedImages`,
`textResponse`, `globalError`, plus the live inputs `sourceImages`,
`settings`, `isImageMode` that `addToQueue` snapshots.  `inFlight` records
dispatched jobs whose gateway call is outstanding: a dispatch closure
captures its `QueueItem` by value, so completion and failure act on that
captured item whether or not it is still in the queue.  All React
`setState` functional updates inside one handler commit atomically before
the next effect run, so each handler is one step of the relation. -/

/-- Application state as the scheduler sees it. -/
structure AppState where
  queue : List QueueItem
  generatedImages : List GeneratedImage
  textResponse : Option String
  globalError : Option String
  liveSourceImages : List String
  liveSettings : EditorSettings
  isImageMode : Bool

/-- The optional `overrideSettings?: Partial<EditorSettings>` argument of
`addToQueue` (App.tsx line 1374): each field optionally overridden. -/
structure SettingsOverride where
  aspectRatio : Option String
  resolution : Option Resolution
  modelType : Option ModelType
  style : Option String
  cameraAngle : Option String

/-- `{ ...settings, ...overrideSettings }` (App.tsx line 1377). -/
def applyOverride (s : EditorSettings) (o : SettingsOverride) : EditorSettings :=
  { aspectRatio := o.aspectRatio.getD s.aspectRatio
    resolution := o.resolution.getD s.resolution
    modelType := o.modelType.getD s.modelType
    style := o.style.getD s.style
    cameraAngle := o.cameraAngle.getD s.cameraAngle }

/-- An override with no fields set (a call without `overrideSettings`). -/
def noOverride : SettingsOverride :=
  { aspectRatio := none, resolution := none, modelType := none
    style := none, cameraAngle := none }

/-- JavaScript `String.prototype.trim`: strip leading and trailing
whitespace (embedded structurally on the char list). -/
def trimChars (s : List Char) : List Char :=
  (((s.dropWhile Char.isWhitespace).reverse).dropWhile Char.isWhitespace).reverse

/-- String-level wrapper for `trimChars` (`currentPrompt.trim()`). -/
def jsTrim (s : String) : String := String.mk (trimChars s.data)

/-- `addToQueue` (App.tsx lines 1374–1398): rejects a blank prompt, else
appends a new pending job whose `settings` and `sourceImages` are
by-value snapshots of the live state (`[...sourceImages]`). `id` is the
fresh `crypto.randomUUID()`, `ts` the `Date.now()` value. -/
def addToQueue (s : AppState) (id : String) (currentPrompt : String)
    (override : SettingsOverride) (ts : Nat) : AppState :=
  if jsTrim currentPrompt = "" then s
  else
    let newItem : QueueItem :=
      { id := id
        prompt := currentPrompt
        settings := applyOverride s.liveSettings override
        sourceImages := if s.isImageMode then s.liveSourceImages else []
        status := .pending
        timestamp := ts
        error := none }
    { s with queue := s.queue ++ [newItem] }

/-- One `setQueue(prev => prev.map(i => i.id === nextItem.id ?
{ ...i, status: 'processing' } : i))` update (App.tsx line 1213). -/
def markProcessing (q : List QueueItem) (item : QueueItem) : List QueueItem :=
  q.map fun i => if i.id = item.id then { i with status := .processing } else i

/-- The number of jobs currently `processing` (App.tsx line 1200). -/
def processingCount (q : List QueueItem) : Nat :=
  (q.filter fun i => i.status = .processing).length

/-- The concurrency bound `maxParallel = 2` (App.tsx line 1201). -/
def maxParallel : Nat := 2

/-- The synchronous admission part of `processNextItems` (App.tsx
lines 1198–1214): counts `processing` jobs, returns unchanged when at the
bound or when nothing is pending, otherwise takes the first
`maxParallel - processingCount` pending jobs in queue order, marks each
`processing`, and returns them as the dispatched batch. -/
def processNextItems (q : List QueueItem) : List QueueItem × List QueueItem :=
  let pc := processingCount q
  if pc ≥ maxParallel then (q, [])
  else
    let pendingItems := (q.filter fun i => i.status = .pending).take (maxParallel - pc)
    if pendingItems = [] then (q, [])
    else (pendingItems.foldl markProcessing q, pendingItems)

/-- The admission step applied to the whole state: `setGlobalError(null)`
runs for each admitted item, and the admitted items join `inFlight`
(their dispatch closures are now running). -/
def admissionState (s : AppState) (inFlight : List QueueItem) :
    AppState × List QueueItem :=
  let r := processNextItems s.queue
  ({ s with
      queue := r.1
      globalError := if r.2 = [] then s.globalError else none },
   inFlight ++ r.2)

/-- The `GeneratedImage` records built on success (App.tsx lines 1225–1230):
one per returned image URL, with the originating job's prompt. `ids` are
the fresh `crypto.randomUUID()` values, `ts` the `Date.now()` value. -/
def mkResults (item : QueueItem) (ids urls : List String) (ts : Nat) :
    List GeneratedImage :=
  List.zipWith (fun i u => { id := i, url := u, prompt := item.prompt, timestamp := ts })
    ids urls

/-- The success continuation of a dispatch (App.tsx lines 1224–1245):
prepends the new results (newest-first) when any image came back,
surfaces nonempty text, and removes the captured job's id from the queue
(a filter, so a no-op when the job was already cancelled). -/
def completeState (s : AppState) (item : QueueItem) (ids urls : List String)
    (text : String) (ts : Nat) : AppState :=
  { s with
    generatedImages :=
      if urls.length > 0 then mkResults item ids urls ts ++ s.generatedImages
      else s.generatedImages
    textResponse := if text ≠ "" then some text else s.textResponse
    queue := s.queue.filter fun i => i.id ≠ item.id }

/-- The failure continuation of a dispatch (App.tsx lines 1247–1253):
stores the message globally and marks the captured job's queue entry
`failed` with the message; every other entry is mapped to itself. -/
def failState (s : AppState) (item : QueueItem) (msg : String) : AppState :=
  { s with
    globalError := some msg
    queue := s.queue.map fun i =>
      if i.id = item.id then { i with status := .failed, error := some msg } else i }

/-- `cancelQueueItem` (App.tsx lines 1538–1540): removes the id from the
queue; nothing else — in particular no in-flight call is aborted. -/
def cancelState (s : AppState) (id : String) : AppState :=
  { s with queue := s.queue.filter fun i => i.id ≠ id }

/-- `retryQueueItem` (App.tsx lines 1542–1544): re-arms the job to
`pending` and clears its error. -/
def retryState (s : AppState) (id : String) : AppState :=
  { s with queue := s.queue.map fun i =>
      if i.id = id then { i with status := .pending, error := none } else i }

/-- A scheduler configuration: the state plus the dispatched jobs whose
gateway calls are outstanding. -/
structure Config where
  state : AppState
  inFlight : List QueueItem

/-- One scheduler step: an enqueue (with a fresh id), an admission pass,
a success or failure continuation of an in-flight dispatch, a user
cancel or retry, or a mutation of the live inputs. -/
inductive Step : Config → Config → Prop where
  | enqueue (c : Config) (id prompt : String) (o : SettingsOverride) (ts : Nat)
      (hid : id ∉ c.state.queue.map QueueItem.id) :
      Step c ⟨addToQueue c.state id prompt o ts, c.inFlight⟩
  | admission (c : Config) :
      Step c ⟨(admissionState c.state c.inFlight).1, (admissionState c.state c.inFlight).2⟩
  | complete (c : Config) (item : QueueItem) (ids urls : List String)
      (text : String) (ts : Nat) (hin : item ∈ c.inFlight) :
      Step c ⟨completeState c.state item ids urls text ts, c.inFlight.erase item⟩
  | fail (c : Config) (item : QueueItem) (msg : String) (hin : item ∈ c.inFlight) :
      Step c ⟨failState c.state item msg, c.inFlight.erase item⟩
  | cancel (c : Config) (id : String) :
      Step c ⟨cancelState c.state id, c.inFlight⟩
  | retry (c : Config) (id : String) :
      Step c ⟨retryState c.state id, c.inFlight⟩
  | setSourceImages (c : Config) (imgs : List String) :
      Step c ⟨{ c.state with liveSourceImages := imgs }, c.inFlight⟩
  | setSettings (c : Config) (st : EditorSettings) :
      Step c ⟨{ c.state with liveSettings := st }, c.inFlight⟩
  | setImageMode (c : Config) (b : Bool) :
      Step c ⟨{ c.state with isImageMode := b }, c.inFlight⟩

/-- The empty initial configuration. -/
def initConfig (settings : EditorSettings) : Config :=
  ⟨{ queue := [], generatedImages := [], textResponse := none,
     globalError := none, liveSourceImages := [], liveSettings := settings,
     isImageMode := false }, []⟩

/-- Reachability from an initial configuration. -/
def Reachable (settings : EditorSettings) (c : Config) : Prop :=
  Relation.ReflTransGen Step (initConfig settings) c

/-- The arguments the dispatch passes to the gateway (App.tsx
lines 1217–1221): exactly the captured job's stored snapshot. -/
def dispatchArgs (item : QueueItem) : List String × String × EditorSettings :=
  (item.sourceImages, item.prompt, item.settings)

/-- Whether some item of `items` carries the given id. -/
def hasId (items : List QueueItem) (id : String) : Bool :=
  items.any fun a => a.id = id

/-- Pointwise form of an admission batch's marking: an entry whose id is
in the batch becomes `processing`, every other entry is unchanged. -/
def markIf (items : List QueueItem) (i : QueueItem) : QueueItem :=
  if hasId items i.id then { i with status := .processing } else i

/-- A mutation of the live UI inputs only (source-image list, settings,
image mode): the queue, results and in-flight dispatches are untouched. -/
def LiveMut (c c' : Config) : Prop :=
  (∃ imgs, c' = ⟨{ c.state with liveSourceImages := imgs }, c.inFlight⟩) ∨
  (∃ st, c' = ⟨{ c.state with liveSettings := st }, c.inFlight⟩) ∨
  (∃ b, c' = ⟨{ c.state with isImageMode := b }, c.inFlight⟩)

/-- Concrete settings used by the witnesses. -/
def demoSettings : EditorSettings := ⟨"1:1", .r1K, .flash, "None", "None"⟩

/-- A concrete job used by the witnesses. -/
def demoJob (id : String) (st : Status) : QueueItem :=
  { id := id, prompt := "p", settings := demoSettings, sourceImages := [],
    status := st, timestamp := 0, error := none }

/-- A concrete configuration used by the witnesses: two live source
images, image mode on, empty queue. -/
def demoConfig : Config :=
  ⟨{ queue := [], generatedImages := [], textResponse := none,
     globalError := none, liveSourceImages := ["A", "B"],
     liveSettings := demoSettings, isImageMode := true }, []⟩

/-- A concrete state used by the witnesses: two processing jobs and one
pending job. -/
def demoState : AppState :=
  { queue := [demoJob "a" .processing, demoJob "b" .processing,
              demoJob "c" .pending],
    generatedImages := [], textResponse := none, globalError := none,
    liveSourceImages := [], liveSettings := demoSettings, isImageMode := false }

/-- A concrete configuration used by the witnesses: job "a" dispatched
and already cancelled (gone from the queue), job "b" still queued. -/
def demoConfig2 : Config :=
  ⟨{ queue := [demoJob "b" .processing], generatedImages := [],
     textResponse := none, globalError := none, liveSourceImages := [],
     liveSettings := demoSettings, isImageMode := false },
   [demoJob "a" .processing]⟩

/-! ## Helper lemmas -/

theorem jsRound_mul_bounds (a b : Nat) (hb : 0 < b) :
    2 * (b * jsRound a b) ≤ 2 * a + b ∧ 2 * a ≤ 2 * (b * jsRound a b) + b := by
  have hb2 : 0 < 2 * b := by omega
  have hdm := Nat.div_add_mod (2 * a + b) (2 * b)
  have hml := Nat.mod_lt (2 * a + b) hb2
  have hassoc : 2 * b * ((2 * a + b) / (2 * b)) = 2 * (b * ((2 * a + b) / (2 * b))) := by
    ring
  unfold jsRound
  omega

theorem jsRound_scale_le (a b m : Nat) (hab : a ≤ b) (hb : 0 < b) :
    jsRound (a * m) b ≤ m := by
  have hb2 : 0 < 2 * b := by omega
  have : (2 * (a * m) + b) / (2 * b) < m + 1 := by
    rw [Nat.div_lt_iff_lt_mul hb2]
    nlinarith
  unfold jsRound
  omega

theorem foldl_markProcessing (items q : List QueueItem) :
    items.foldl markProcessing q = q.map (markIf items) := by
  induction items generalizing q with
  | nil =>
    have h : q.map (markIf []) = q.map (fun i => i) :=
      List.map_congr_left fun i _ => by simp [markIf, hasId]
    rw [List.foldl_nil, h, List.map_id']
  | cons a as ih =>
    rw [List.foldl_cons, ih, markProcessing, List.map_map]
    apply List.map_congr_left
    intro i _
    by_cases hid : i.id = a.id
    · simp [markIf, hasId, hid, Function.comp]
    · have hid' : ¬ (a.id = i.id) := fun h => hid h.symm
      simp [markIf, hasId, hid, hid', Function.comp]

theorem countP_or_disjoint {α : Type} (p r : α → Bool) (l : List α)
    (h : ∀ x ∈ l, ¬(p x = true ∧ r x = true)) :
    l.countP (fun x => p x || r x) = l.countP p + l.countP r := by
  induction l with
  | nil => simp
  | cons a l ih =>
    have ha := h a (List.mem_cons_self a l)
    rw [List.countP_cons, List.countP_cons, List.countP_cons,
      ih fun x hx => h x (List.mem_cons_of_mem a hx)]
    by_cases hp : p a = true <;> by_cases hr : r a = true
    · exact absurd ⟨hp, hr⟩ ha
    · simp [hp, hr]; omega
    · simp [hp, hr]; omega
    · simp [hp, hr]

theorem countP_id_single (q : List QueueItem) (a : QueueItem)
    (hnd : (q.map QueueItem.id).Nodup) (ha : a ∈ q) :
    q.countP (fun i => a.id = i.id) = 1 := by
  induction q with
  | nil => cases ha
  | cons b q ih =>
    have hnd' : (b.id :: q.map QueueItem.id).Nodup := by simpa using hnd
    have hbq := List.nodup_cons.mp hnd'
    rw [List.countP_cons]
    rcases List.mem_cons.mp ha with rfl | hmem
    · have h0 : q.countP (fun i => a.id = i.id) = 0 := by
        rw [List.countP_eq_zero]
        intro x hx hax
        have hax' : a.id = x.id := by simpa using hax
        exact hbq.1 (List.mem_map.mpr ⟨x, hx, hax'.symm⟩)
      simp [h0]
    · have hne : ¬ (a.id = b.id) := by
        intro h
        exact hbq.1 (h ▸ List.mem_map.mpr ⟨a, hmem, rfl⟩)
      rw [ih hbq.2 hmem]
      simp [hne]

theorem countP_hasId_eq_length (q S : List QueueItem)
    (hnd : (q.map QueueItem.id).Nodup)
    (hsub : ∀ a ∈ S, a ∈ q)
    (hSnd : (S.map QueueItem.id).Nodup) :
    q.countP (fun i => hasId S i.id) = S.length := by
  induction S with
  | nil => simp [hasId]
  | cons a S ih =>
    have hSnd' : (a.id :: S.map QueueItem.id).Nodup := by simpa using hSnd
    have hhead := List.nodup_cons.mp hSnd'
    have hstep : q.countP (fun i => hasId (a :: S) i.id)
        = q.countP (fun i => decide (a.id = i.id) || hasId S i.id) := by
      apply List.countP_congr
      intro x _
      simp [hasId]
    rw [hstep, countP_or_disjoint]
    · rw [countP_id_single q a hnd (hsub a (List.mem_cons_self a S)),
        ih (fun b hb => hsub b (List.mem_cons_of_mem a hb)) hhead.2]
      simp only [List.length_cons]
      omega
    · intro x _ hx
      have h1 : a.id = x.id := by simpa using hx.1
      have h2 : x.id ∈ S.map QueueItem.id := by
        rcases (by simpa [hasId] using hx.2 : ∃ b ∈ S, b.id = x.id) with ⟨b, hb, hbx⟩
        exact List.mem_map.mpr ⟨b, hb, hbx⟩
      exact hhead.1 (h1 ▸ h2)

theorem processingCount_map_markIf (q S : List QueueItem)
    (hnd : (q.map QueueItem.id).Nodup)
    (hsub : ∀ a ∈ S, a ∈ q)
    (hSnd : (S.map QueueItem.id).Nodup)
    (hpend : ∀ a ∈ S, a.status = .pending) :
    processingCount (q.map (markIf S)) = processingCount q + S.length := by
  rw [processingCount, ← List.countP_eq_length_filter, List.countP_map,
    processingCount, ← List.countP_eq_length_filter]
  have hpt : q.countP ((fun i => decide (i.status = Status.processing)) ∘ markIf S)
      = q.countP (fun i => hasId S i.id || decide (i.status = Status.processing)) := by
    apply List.countP_congr
    intro i _
    by_cases h : hasId S i.id <;> simp [markIf, h, Function.comp]
  rw [hpt, countP_or_disjoint]
  · rw [countP_hasId_eq_length q S hnd hsub hSnd]
    omega
  · intro x hx h
    rcases (by simpa [hasId] using h.1 : ∃ b ∈ S, b.id = x.id) with ⟨b, hb, hbx⟩
    have hbxq : b = x :=
      List.inj_on_of_nodup_map hnd (hsub b hb) hx hbx
    have : x.status = Status.pending := hbxq ▸ hpend b hb
    rw [this] at h
    simpa using h.2

theorem processingCount_filter_le (q : List QueueItem) (p : QueueItem → Bool) :
    processingCount (q.filter p) ≤ processingCount q := by
  rw [processingCount, ← List.countP_eq_length_filter,
    processingCount, ← List.countP_eq_length_filter]
  exact List.Sublist.countP_le _ (List.filter_sublist q)

theorem processingCount_map_le (q : List QueueItem) (g : QueueItem → QueueItem)
    (hg : ∀ i ∈ q, (g i).status = .processing → i.status = .processing) :
    processingCount (q.map g) ≤ processingCount q := by
  rw [processingCount, ← List.countP_eq_length_filter, List.countP_map,
    processingCount, ← List.countP_eq_length_filter]
  apply List.countP_mono_left
  intro x hx h
  simp only [Function.comp] at h
  simpa using hg x hx (by simpa using h)

theorem nodup_ids_map (q : List QueueItem) (g : QueueItem → QueueItem)
    (hg : ∀ i, (g i).id = i.id) (hnd : (q.map QueueItem.id).Nodup) :
    ((q.map g).map QueueItem.id).Nodup := by
  rw [List.map_map]
  have : q.map (QueueItem.id ∘ g) = q.map QueueItem.id :=
    List.map_congr_left fun i _ => hg i
  rw [this]
  exact hnd

theorem nodup_ids_filter (q : List QueueItem) (p : QueueItem → Bool)
    (hnd : (q.map QueueItem.id).Nodup) :
    ((q.filter p).map QueueItem.id).Nodup :=
  List.Nodup.sublist (List.Sublist.map _ (List.filter_sublist q)) hnd

theorem filter_not_hasId_append (t d : List QueueItem)
    (hnd : ((t ++ d).map QueueItem.id).Nodup) :
    (t ++ d).filter (fun i => !(hasId t i.id)) = d := by
  have hdisj : List.Disjoint (t.map QueueItem.id) (d.map QueueItem.id) := by
    rw [List.map_append] at hnd
    exact (List.nodup_append.mp hnd).2.2
  rw [List.filter_append]
  have h1 : t.filter (fun i => !(hasId t i.id)) = [] := by
    rw [List.filter_eq_nil_iff]
    intro a ha
    simp [hasId]
    exact ⟨a, ha, rfl⟩
  have h2 : d.filter (fun i => !(hasId t i.id)) = d := by
    rw [List.filter_eq_self]
    intro a ha
    simp [hasId]
    intro b hb hba
    exact hdisj (List.mem_map.mpr ⟨b, hb, rfl⟩)
      (hba ▸ List.mem_map.mpr ⟨a, ha, rfl⟩)
  rw [h1, h2, List.nil_append]

theorem filter_not_hasId_take (p : List QueueItem) (k : Nat)
    (hnd : (p.map QueueItem.id).Nodup) :
    p.filter (fun i => !(hasId (p.take k) i.id)) = p.drop k := by
  have key := filter_not_hasId_append (p.take k) (p.drop k)
    (by rw [List.take_append_drop]; exact hnd)
  rw [List.take_append_drop] at key
  exact key

/-! ## Theorems -/

/-- C7: the preprocessor returns the input unchanged when the string is
below the 50000-char short-circuit or the decoded dimensions are within
the 1024 px bound, returns the input unchanged on decode failure, and on
an oversized decodable input produces a resize whose longer side is at
most 1024 and whose aspect ratio matches the input's to within rounding
(cross-multiplied difference at most half the longer input side).  The
embedded function is total and returns a plain `ResizeOutput` — every
branch of the source resolves the promise; none rejects. -/
theorem preprocessor_contract (img : ImageInput) (ctx : Bool) :
    (img.length < 50000 → resizeBase64Image true ctx img = .original) ∧
    (∀ w h, img.decode = some (w, h) → w ≤ 1024 → h ≤ 1024 →
      resizeBase64Image true ctx img = .original) ∧
    (img.decode = none → resizeBase64Image true ctx img = .original) ∧
    (∀ w h, img.decode = some (w, h) → 50000 ≤ img.length →
      ¬(w ≤ 1024 ∧ h ≤ 1024) →
      ∃ w2 h2, resizeBase64Image true true img = .resized w2 h2 ∧
        max w2 h2 ≤ 1024 ∧
        2 * (h2 * w) ≤ 2 * (h * w2) + max w h ∧
        2 * (h * w2) ≤ 2 * (h2 * w) + max w h) := by
  refine ⟨?_, ?_, ?_, ?_⟩
  · intro hlen
    simp [resizeBase64Image, hlen]
  · intro w h hdec hw hh
    by_cases hlen : img.length < 50000 <;>
      simp [resizeBase64Image, hlen, hdec, hw, hh]
  · intro hdec
    by_cases hlen : img.length < 50000 <;> simp [resizeBase64Image, hlen, hdec]
  · intro w h hdec hlen hbig
    have hlen' : ¬ img.length < 50000 := by omega
    by_cases hwh : w > h
    · have hw1024 : w > 1024 := by
        rcases Nat.lt_or_ge 1024 w with h1 | h1
        · exact h1
        · exact absurd ⟨h1, by omega⟩ hbig
      have hble := jsRound_scale_le h w 1024 (le_of_lt hwh) (by omega)
      have hmb := jsRound_mul_bounds (h * 1024) w (by omega)
      have hcomm : jsRound (h * 1024) w * w = w * jsRound (h * 1024) w :=
        Nat.mul_comm _ _
      refine ⟨1024, jsRound (h * 1024) w, ?_, by omega, by omega, by omega⟩
      simp [resizeBase64Image, hlen', hdec, hbig, hwh, hw1024]
    · have hh1024 : h > 1024 := by
        rcases Nat.lt_or_ge 1024 h with h1 | h1
        · exact h1
        · exact absurd ⟨by omega, h1⟩ hbig
      have hble := jsRound_scale_le w h 1024 (by omega) (by omega)
      have hmb := jsRound_mul_bounds (w * 1024) h (by omega)
      refine ⟨jsRound (w * 1024) h, 1024, ?_, by omega, by omega, by omega⟩
      simp [resizeBase64Image, hlen', hdec, hbig, hwh, hh1024]

/-- Witness for C7: a small image passes through unchanged; a 2048×1024
image at 60000 chars is resized within the bound with its 2:1 ratio
preserved to within rounding. -/
theorem preprocessor_contract_witness :
    resizeBase64Image true true ⟨100, some (4096, 4096)⟩ = .original ∧
    (∃ w2 h2, resizeBase64Image true true ⟨60000, some (2048, 1024)⟩ = .resized w2 h2 ∧
      max w2 h2 ≤ 1024 ∧
      2 * (h2 * 2048) ≤ 2 * (1024 * w2) + max 2048 1024 ∧
      2 * (1024 * w2) ≤ 2 * (h2 * 2048) + max 2048 1024) := by
  constructor
  · exact (preprocessor_contract ⟨100, some (4096, 4096)⟩ true).1 (by decide)
  · exact (preprocessor_contract ⟨60000, some (2048, 1024)⟩ true).2.2.2 2048 1024
      rfl (by decide) (by decide)

/-- C5: tier selection is a pure, deterministic, total function of
(resolution, modelType): resolution 1K with no explicit pro override
selects the fast tier and the built config carries no `imageSize`;
resolution 2K or 4K, or an explicit pro override, selects the pro tier
and the config's `imageSize` equals the resolution string. -/
theorem tier_selection (s : EditorSettings) :
    (s.resolution = .r1K ∧ s.modelType ≠ .pro →
      modelName s = "gemini-2.5-flash-image" ∧ (buildConfig s).imageSize = none) ∧
    (s.resolution = .r2K ∨ s.resolution = .r4K ∨ s.modelType = .pro →
      modelName s = "gemini-3-pro-image-preview" ∧
        (buildConfig s).imageSize = some s.resolution.str) := by
  obtain ⟨ar, res, mt, st, ca⟩ := s
  cases res <;> cases mt <;>
    simp [modelName, isPro, buildConfig, Resolution.str]

/-- Witness for C5: concrete fast-tier and pro-tier instances. -/
theorem tier_selection_witness :
    (modelName ⟨"1:1", .r1K, .flash, "None", "None"⟩ = "gemini-2.5-flash-image" ∧
      (buildConfig ⟨"1:1", .r1K, .flash, "None", "None"⟩).imageSize = none) ∧
    (modelName ⟨"1:1", .r4K, .flash, "None", "None"⟩ = "gemini-3-pro-image-preview" ∧
      (buildConfig ⟨"1:1", .r4K, .flash, "None", "None"⟩).imageSize = some "4K") :=
  ⟨(tier_selection ⟨"1:1", .r1K, .flash, "None", "None"⟩).1 ⟨rfl, by decide⟩,
   (tier_selection ⟨"1:1", .r4K, .flash, "None", "None"⟩).2 (Or.inr (Or.inl rfl))⟩

/-- C6: the built content is all image attachments followed by exactly one
final text part; the text is the prompt unchanged when style and camera
angle are both "None", the prompt with the style clause appended when only
the style is set, the prompt with the camera clause appended when only the
camera angle is set, and the prompt with the comma-separated style clause
before the camera clause when both are set.  (Settings values come from
the `STYLES` / `CAMERA_ANGLES` constant lists of `types.ts`, none of which
is the empty string, hence the two nonemptiness hypotheses.) -/
theorem prompt_augmentation (imgs : List String) (p : String)
    (s : EditorSettings) (hs : s.style ≠ "") (hc : s.cameraAngle ≠ "") :
    buildParts imgs p s = imgs.map mkInlinePart ++ [.text (finalPrompt p s)] ∧
    (s.style = "None" → s.cameraAngle = "None" → finalPrompt p s = p) ∧
    (s.style ≠ "None" → s.cameraAngle = "None" →
      finalPrompt p s = p ++ ", " ++ ("in " ++ s.style ++ " style")) ∧
    (s.style = "None" → s.cameraAngle ≠ "None" →
      finalPrompt p s = p ++ ", " ++ ("shot from " ++ s.cameraAngle)) ∧
    (s.style ≠ "None" → s.cameraAngle ≠ "None" →
      finalPrompt p s =
        p ++ ", " ++ ("in " ++ s.style ++ (" style, " ++ ("shot from " ++ s.cameraAngle)))) := by
  refine ⟨rfl, ?_, ?_, ?_, ?_⟩
  · intro h1 h2
    simp [finalPrompt, modifiers, h1, h2]
  · intro h1 h2
    simp [finalPrompt, modifiers, hs, h1, h2, joinComma]
  · intro h1 h2
    simp [finalPrompt, modifiers, hc, h1, h2, joinComma]
  · intro h1 h2
    simp [finalPrompt, modifiers, hs, hc, h1, h2, joinComma, String.append_assoc]

/-- Witness for C6: the spec's worked example — prompt "portrait" with
style "Cinematic" and camera angle "Low Angle" yields the final text
"portrait, in Cinematic style, shot from Low Angle", placed as the single
trailing text part after the image attachments. -/
theorem prompt_augmentation_witness :
    buildParts [] "portrait" ⟨"1:1", .r4K, .flash, "Cinematic", "Low Angle"⟩ =
      [.text "portrait, in Cinematic style, shot from Low Angle"] ∧
    finalPrompt "portrait" ⟨"1:1", .r4K, .flash, "Cinematic", "Low Angle"⟩ =
      "portrait, in Cinematic style, shot from Low Angle" := by
  have h := prompt_augmentation [] "portrait"
      ⟨"1:1", .r4K, .flash, "Cinematic", "Low Angle"⟩ (by decide) (by decide)
  have hft := h.2.2.2.2 (by decide) (by decide)
  refine ⟨?_, ?_⟩
  · rw [h.1, hft]
    rfl
  · rw [hft]
    rfl

theorem collectStep_eq (acc : List String × String) (p : ResponsePart) :
    collectStep acc p =
      (acc.1 ++ (if isImagePart p
                 then ["data:image/png;base64," ++ p.inlineData.getD ""] else []),
       acc.2 ++ textContrib p) := by
  obtain ⟨d?, t?⟩ := p
  cases d? with
  | some d =>
    by_cases hd : d = "" <;>
      cases t? with
      | some t =>
        by_cases ht : t = "" <;>
          simp [collectStep, isImagePart, textContrib, hd, ht]
      | none => simp [collectStep, isImagePart, textContrib, hd]
  | none =>
    cases t? with
    | some t =>
      by_cases ht : t = "" <;>
        simp [collectStep, isImagePart, textContrib, ht]
    | none => simp [collectStep, isImagePart, textContrib]

theorem foldl_collectStep (parts : List ResponsePart) (acc : List String × String) :
    parts.foldl collectStep acc = (acc.1 ++ imageUrls parts, acc.2 ++ textsOf parts) := by
  induction parts generalizing acc with
  | nil => simp [imageUrls, textsOf]
  | cons p ps ih =>
    rw [List.foldl_cons, ih, collectStep_eq]
    simp [imageUrls, textsOf, String.append_assoc]

theorem collectOutputs_eq (parts : List ResponsePart) :
    collectOutputs parts = (imageUrls parts, textsOf parts) := by
  rw [collectOutputs, foldl_collectStep]
  simp

theorem classifyError_no_image :
    classifyError "No image generated." = "No image generated." := by decide

/-- C8: a response with neither inline image data nor any text makes the
call fail with the fixed message "No image generated." (which the catch
classifier passes through verbatim); a response with at least one image
or nonempty text succeeds, returning the images in response order and
the concatenated text. -/
theorem empty_result_failure (parts? : Option (List ResponsePart)) :
    (∀ ps, parts? = some ps → imageUrls ps = [] → textsOf ps = "" →
      gatewayDecode parts? = .error "No image generated.") ∧
    (parts? = none → gatewayDecode parts? = .error "No image generated.") ∧
    (∀ ps, parts? = some ps → (imageUrls ps ≠ [] ∨ textsOf ps ≠ "") →
      gatewayDecode parts? = .ok (imageUrls ps, textsOf ps)) := by
  refine ⟨?_, ?_, ?_⟩
  · intro ps hps himg htxt
    subst hps
    simp [gatewayDecode, decodeResponse, collectOutputs_eq, himg, htxt,
      classifyError_no_image]
  · intro h
    subst h
    simp [gatewayDecode, decodeResponse, classifyError_no_image]
  · intro ps hps hne
    subst hps
    rcases hne with hne | hne <;>
      simp [gatewayDecode, decodeResponse, collectOutputs_eq, hne,
        List.length_eq_zero]

/-- Witness for C8: an all-empty response fails with the fixed message;
a response with one image part and one text part succeeds with that
image and that text. -/
theorem empty_result_failure_witness :
    gatewayDecode (some [⟨some "", none⟩]) = .error "No image generated." ∧
    gatewayDecode (some [⟨some "A", none⟩, ⟨none, some "hi"⟩]) =
      .ok (["data:image/png;base64,A"], "hi") := by
  constructor
  · exact (empty_result_failure (some [⟨some "", none⟩])).1 _ rfl (by decide) (by decide)
  · have h := (empty_result_failure (some [⟨some "A", none⟩, ⟨none, some "hi"⟩])).2.2
      _ rfl (Or.inl (by decide))
    rw [h]
    rfl

theorem dropPrefixChars_append (p t : List Char) :
    dropPrefixChars p (p ++ t) = some t := by
  induction p with
  | nil => rfl
  | cons c cs ih => simp [dropPrefixChars, ih]

theorem takeWhile_append_alpha (l1 : List Char) (c : Char) (l2 : List Char)
    (h1 : ∀ x ∈ l1, x.isAlpha = true) (hc : c.isAlpha = false) :
    (l1 ++ c :: l2).takeWhile Char.isAlpha = l1 := by
  induction l1 with
  | nil => simp [List.takeWhile_cons, hc]
  | cons a as ih =>
    have ha := h1 a (List.mem_cons_self a as)
    simp only [List.cons_append, List.takeWhile_cons, ha, if_true]
    rw [ih fun x hx => h1 x (List.mem_cons_of_mem a hx)]

theorem parseMimeChars_wellformed (sub rest : List Char) (hne : sub ≠ [])
    (halpha : ∀ c ∈ sub, c.isAlpha = true) :
    parseMimeChars ("data:image/".data ++ (sub ++ (";base64,".data ++ rest))) =
      some ("image/".data ++ sub) := by
  rw [parseMimeChars, dropPrefixChars_append]
  have hsplit : (";base64,".data : List Char) ++ rest =
      ';' :: ("base64,".data ++ rest) := rfl
  have ht : (sub ++ (";base64,".data ++ rest)).takeWhile Char.isAlpha = sub := by
    rw [hsplit]
    exact takeWhile_append_alpha sub ';' _ halpha (by decide)
  simp only [ht]
  have hd : (sub ++ (";base64,".data ++ rest)).drop sub.length =
      ";base64,".data ++ rest := List.drop_left _ _
  rw [hd]
  simp [hne, isPrefixChars, dropPrefixChars]

/-- C9: every preprocessed image becomes exactly one inline attachment;
its media-type tag is the type parsed from the data-URL header (shown
correct on every well-formed header `data:image/<subtype>;base64,...`),
and defaults to `image/jpeg` exactly when the header does not parse. -/
theorem media_type_tagging (imgs : List String) :
    buildImageParts imgs = imgs.map mkInlinePart ∧
    (buildImageParts imgs).length = imgs.length ∧
    (∀ img ∈ imgs, mkInlinePart img =
      .inlineImage (stripHeader img) ((parseMime img).getD "image/jpeg")) ∧
    (∀ sub rest : List Char, sub ≠ [] → (∀ c ∈ sub, c.isAlpha = true) →
      parseMime (String.mk ("data:image/".data ++ (sub ++ (";base64,".data ++ rest)))) =
        some (String.mk ("image/".data ++ sub))) ∧
    (∀ img : String, parseMime img = none →
      mkInlinePart img = .inlineImage (stripHeader img) "image/jpeg") := by
  refine ⟨rfl, by simp [buildImageParts], ?_, ?_, ?_⟩
  · intro img _
    rfl
  · intro sub rest hne halpha
    have hdata : (String.mk ("data:image/".data ++ (sub ++ (";base64,".data ++ rest)))).data
        = "data:image/".data ++ (sub ++ (";base64,".data ++ rest)) := rfl
    rw [parseMime, hdata, parseMimeChars_wellformed sub rest hne halpha]
    rfl
  · intro img hnone
    rw [mkInlinePart, hnone]
    rfl

/-- Witness for C9: a webp data-URL is tagged `image/webp`; a headerless
string falls back to the `image/jpeg` tag. -/
theorem media_type_tagging_witness :
    parseMime "data:image/webp;base64,XYZ" = some "image/webp" ∧
    mkInlinePart "garbage" = .inlineImage "garbage" "image/jpeg" := by
  constructor
  · have h := (media_type_tagging []).2.2.2.1 "webp".data "XYZ".data
      (by decide) (by decide)
    have e : String.mk ("data:image/".data ++ ("webp".data ++ (";base64,".data ++ "XYZ".data))) =
        "data:image/webp;base64,XYZ" := by decide
    have e2 : String.mk ("image/".data ++ "webp".data) = "image/webp" := by decide
    rw [e, e2] at h
    exact h
  · exact (media_type_tagging []).2.2.2.2 "garbage" (by decide)

theorem processNextItems_busy (q : List QueueItem)
    (h : processingCount q ≥ maxParallel) : processNextItems q = (q, []) := by
  rw [processNextItems]
  simp [h]

theorem processNextItems_none (q : List QueueItem)
    (h : q.filter (fun i => i.status = .pending) = []) :
    processNextItems q = (q, []) := by
  rw [processNextItems]
  by_cases hpc : processingCount q ≥ maxParallel <;> simp [hpc, h]

theorem processNextItems_active (q : List QueueItem)
    (hpc : processingCount q < maxParallel)
    (hpend : q.filter (fun i => i.status = .pending) ≠ []) :
    processNextItems q =
      (((q.filter fun i => i.status = .pending).take
          (maxParallel - processingCount q)).foldl markProcessing q,
       (q.filter fun i => i.status = .pending).take
          (maxParallel - processingCount q)) := by
  rw [processNextItems]
  have h1 : ¬ (processingCount q ≥ maxParallel) := by omega
  have htake : (q.filter fun i => i.status = .pending).take
      (maxParallel - processingCount q) ≠ [] := by
    have hM : maxParallel = 2 := rfl
    rw [Ne, List.take_eq_nil_iff]
    push_neg
    exact ⟨by omega, hpend⟩
  simp [h1, htake]

/-- C2: when admission runs with fewer than `maxParallel = 2` jobs
processing and a nonempty pending backlog, the dispatched batch is
exactly the first `2 − processingCount` pending jobs in queue
(= insertion) order; each is marked `processing` in the resulting queue
(before its dispatch runs), the batch is nonempty and within the free
capacity, and the jobs left pending are exactly the later pending jobs —
so no pending job is admitted while an earlier-enqueued one stays
pending.  Queue ids are distinct (fresh `crypto.randomUUID()` per
enqueue, an invariant of every reachable state). -/
theorem fifo_admission (q : List QueueItem)
    (hnd : (q.map QueueItem.id).Nodup)
    (hpc : processingCount q < maxParallel)
    (hpend : q.filter (fun i => i.status = .pending) ≠ []) :
    (processNextItems q).2 =
      (q.filter fun i => i.status = .pending).take
        (maxParallel - processingCount q) ∧
    (processNextItems q).2 ≠ [] ∧
    (processNextItems q).2.length ≤ maxParallel - processingCount q ∧
    (∀ a ∈ (processNextItems q).2, a ∈ q ∧ a.status = .pending) ∧
    (processNextItems q).1 = q.map (markIf (processNextItems q).2) ∧
    (∀ a ∈ (processNextItems q).2,
      { a with status := Status.processing } ∈ (processNextItems q).1) ∧
    processingCount (processNextItems q).1 =
      processingCount q + (processNextItems q).2.length ∧
    (processNextItems q).1.filter (fun i => i.status = .pending) =
      (q.filter fun i => i.status = .pending).drop
        (maxParallel - processingCount q) := by
  have hact := processNextItems_active q hpc hpend
  set p := q.filter fun i => i.status = .pending with hp
  set k := maxParallel - processingCount q with hk
  set S := p.take k with hS
  have hSq : ∀ a ∈ S, a ∈ q ∧ a.status = .pending := by
    intro a ha
    have hap : a ∈ p := (List.take_sublist k p).subset ha
    have := List.mem_filter.mp hap
    exact ⟨this.1, by simpa using this.2⟩
  have hSnd : (S.map QueueItem.id).Nodup :=
    List.Nodup.sublist
      (List.Sublist.map _ ((List.take_sublist k p).trans (List.filter_sublist q)))
      hnd
  have hfold : S.foldl markProcessing q = q.map (markIf S) :=
    foldl_markProcessing S q
  have htake : S ≠ [] := by
    have hM : maxParallel = 2 := rfl
    rw [hS, Ne, List.take_eq_nil_iff]
    push_neg
    exact ⟨by omega, hpend⟩
  refine ⟨by rw [hact], ?_, ?_, ?_, ?_, ?_, ?_, ?_⟩
  · rw [hact]
    exact htake
  · rw [hact]
    exact List.length_take_le k p
  · intro a ha
    rw [hact] at ha
    exact hSq a ha
  · rw [hact]
    exact hfold
  · intro a ha
    rw [hact] at ha ⊢
    rw [hfold]
    have haS : hasId S a.id = true := by
      simp [hasId]
      exact ⟨a, ha, rfl⟩
    have : markIf S a = { a with status := Status.processing } := by
      simp [markIf, haS]
    exact this ▸ List.mem_map_of_mem (markIf S) (hSq a ha).1
  · rw [hact]
    simp only [hfold]
    rw [processingCount_map_markIf q S hnd (fun a ha => (hSq a ha).1) hSnd
      (fun a ha => (hSq a ha).2)]
  · rw [hact]
    simp only [hfold]
    rw [List.filter_map]
    have h1 : ((fun i => decide (i.status = Status.pending)) ∘ markIf S) =
        fun i => (!(hasId S i.id)) && decide (i.status = Status.pending) := by
      funext i
      by_cases h : hasId S i.id <;> simp [markIf, h, Function.comp]
    rw [h1]
    have h2 : (q.filter fun i => (!(hasId S i.id)) && decide (i.status = Status.pending))
        = p.filter fun i => !(hasId S i.id) := by
      rw [hp, List.filter_filter]
    rw [h2]
    have h3 : (p.filter fun i => !(hasId S i.id)).map (markIf S) =
        p.filter fun i => !(hasId S i.id) := by
      have hident : ∀ a ∈ (p.filter fun i => !(hasId S i.id)), markIf S a = a := by
        intro a ha
        have := (List.mem_filter.mp ha).2
        have hfa : hasId S a.id = false := by simpa using this
        simp [markIf, hfa]
      rw [List.map_congr_left hident, List.map_id']
    rw [h3, hS]
    exact filter_not_hasId_take p k (nodup_ids_filter q _ hnd)

/-- Witness for C2: one slot free (one job processing), three pending
jobs — exactly the earliest pending job is admitted and marked. -/
theorem fifo_admission_witness :
    (processNextItems [demoJob "a" .processing, demoJob "b" .pending,
        demoJob "c" .pending, demoJob "d" .pending]).2 = [demoJob "b" .pending] ∧
    (processNextItems [demoJob "a" .processing, demoJob "b" .pending,
        demoJob "c" .pending, demoJob "d" .pending]).1.filter
        (fun i => i.status = .pending) =
      [demoJob "c" .pending, demoJob "d" .pending] := by
  have h := fifo_admission
    [demoJob "a" .processing, demoJob "b" .pending,
     demoJob "c" .pending, demoJob "d" .pending]
    (by decide) (by decide) (by decide)
  constructor
  · rw [h.1]
    decide
  · rw [h.2.2.2.2.2.2.2]
    decide

theorem step_preserves (c c' : Config) (h : Step c c')
    (hnd : (c.state.queue.map QueueItem.id).Nodup)
    (hpc : processingCount c.state.queue ≤ maxParallel) :
    (c'.state.queue.map QueueItem.id).Nodup ∧
      processingCount c'.state.queue ≤ maxParallel := by
  cases h with
  | enqueue id prompt o ts hid =>
    show ((addToQueue c.state id prompt o ts).queue.map QueueItem.id).Nodup ∧
      processingCount (addToQueue c.state id prompt o ts).queue ≤ maxParallel
    by_cases hp : jsTrim prompt = ""
    · have he : addToQueue c.state id prompt o ts = c.state := by
        rw [addToQueue, if_pos hp]
      rw [he]
      exact ⟨hnd, hpc⟩
    · have he : (addToQueue c.state id prompt o ts).queue
          = c.state.queue ++
            [({ id := id, prompt := prompt,
                settings := applyOverride c.state.liveSettings o,
                sourceImages :=
                  if c.state.isImageMode then c.state.liveSourceImages else [],
                status := .pending, timestamp := ts,
                error := none } : QueueItem)] := by
        rw [addToQueue, if_neg hp]
      rw [he]
      constructor
      · rw [List.map_append, List.nodup_append]
        refine ⟨hnd, List.nodup_singleton _, ?_⟩
        intro x hx hmem
        rcases List.mem_singleton.mp hmem with rfl
        exact hid hx
      · rw [processingCount, List.filter_append, List.length_append]
        rw [processingCount] at hpc
        simpa using hpc
  | admission =>
    show (((processNextItems c.state.queue).1.map QueueItem.id).Nodup ∧
      processingCount (processNextItems c.state.queue).1 ≤ maxParallel)
    by_cases h1 : processingCount c.state.queue ≥ maxParallel
    · rw [processNextItems_busy c.state.queue h1]
      exact ⟨hnd, hpc⟩
    · by_cases h2 : c.state.queue.filter (fun i => i.status = .pending) = []
      · rw [processNextItems_none c.state.queue h2]
        exact ⟨hnd, hpc⟩
      · have hlt : processingCount c.state.queue < maxParallel := by omega
        have hfa := fifo_admission c.state.queue hnd hlt h2
        constructor
        · rw [hfa.2.2.2.2.1]
          apply nodup_ids_map _ _ _ hnd
          intro i
          by_cases hh : hasId (processNextItems c.state.queue).2 i.id <;>
            simp [markIf, hh]
        · rw [hfa.2.2.2.2.2.2.1]
          have hlen := hfa.2.2.1
          omega
  | complete item ids urls text ts hin =>
    exact ⟨nodup_ids_filter _ _ hnd,
      le_trans (processingCount_filter_le _ _) hpc⟩
  | fail item msg hin =>
    constructor
    · apply nodup_ids_map _ _ _ hnd
      intro i
      by_cases hh : i.id = item.id <;> simp [hh]
    · refine le_trans (processingCount_map_le _ _ ?_) hpc
      intro i _ hgi
      by_cases hh : i.id = item.id
      · rw [if_pos hh] at hgi
        cases hgi
      · rwa [if_neg hh] at hgi
  | cancel id =>
    exact ⟨nodup_ids_filter _ _ hnd,
      le_trans (processingCount_filter_le _ _) hpc⟩
  | retry id =>
    constructor
    · apply nodup_ids_map _ _ _ hnd
      intro i
      by_cases hh : i.id = id <;> simp [hh]
    · refine le_trans (processingCount_map_le _ _ ?_) hpc
      intro i _ hgi
      by_cases hh : i.id = id
      · rw [if_pos hh] at hgi
        cases hgi
      · rwa [if_neg hh] at hgi
  | setSourceImages imgs => exact ⟨hnd, hpc⟩
  | setSettings st => exact ⟨hnd, hpc⟩
  | setImageMode b => exact ⟨hnd, hpc⟩

theorem reachable_inv (st : EditorSettings) (c : Config) (h : Reachable st c) :
    (c.state.queue.map QueueItem.id).Nodup ∧
      processingCount c.state.queue ≤ maxParallel := by
  induction h with
  | refl => exact ⟨by simp [initConfig], by simp [initConfig, processingCount]⟩
  | tail hsteps hstep ih => exact step_preserves _ _ hstep ih.1 ih.2

/-- C1: in every configuration reachable from the empty initial state by
enqueue, admission, completion, failure, cancel, retry, and live-input
steps, the number of jobs whose status is `processing` never exceeds the
concurrency bound 2. -/
theorem bounded_concurrency (st : EditorSettings) (c : Config)
    (h : Reachable st c) : processingCount c.state.queue ≤ 2 :=
  (reachable_inv st c h).2

/-- Witness for C1: the initial configuration is reachable and satisfies
the bound. -/
theorem bounded_concurrency_witness :
    processingCount (initConfig demoSettings).state.queue ≤ 2 :=
  bounded_concurrency demoSettings (initConfig demoSettings)
    Relation.ReflTransGen.refl

/-- C3: `addToQueue` snapshots the live settings (with any override
applied) and the live source-image list by value into the new job; no
sequence of later live-input mutations changes any queued job, and the
dispatch arguments for the job are exactly its stored snapshot — so a job
enqueued with live images [A, B] is dispatched with [A, B] even if the
live list has since changed.  (`LiveMut` steps are genuine program steps:
every `LiveMut` is a `Step`.) -/
theorem snapshot_isolation (c : Config) (id prompt : String)
    (o : SettingsOverride) (ts : Nat) (hp : ¬ jsTrim prompt = "")
    (hid : id ∉ c.state.queue.map QueueItem.id) :
    (∀ a b : Config, LiveMut a b → Step a b) ∧
    (∃ item : QueueItem,
      item ∈ (addToQueue c.state id prompt o ts).queue ∧ item.id = id ∧
      item.settings = applyOverride c.state.liveSettings o ∧
      item.sourceImages =
        (if c.state.isImageMode then c.state.liveSourceImages else [])) ∧
    (∀ c2 : Config,
      Relation.ReflTransGen LiveMut
        ⟨addToQueue c.state id prompt o ts, c.inFlight⟩ c2 →
      c2.state.queue = (addToQueue c.state id prompt o ts).queue ∧
      ∀ item ∈ c2.state.queue, item.id = id →
        dispatchArgs item =
          ((if c.state.isImageMode then c.state.liveSourceImages else []),
           prompt, applyOverride c.state.liveSettings o)) := by
  have he : (addToQueue c.state id prompt o ts).queue
      = c.state.queue ++
        [({ id := id, prompt := prompt,
            settings := applyOverride c.state.liveSettings o,
            sourceImages :=
              if c.state.isImageMode then c.state.liveSourceImages else [],
            status := .pending, timestamp := ts,
            error := none } : QueueItem)] := by
    rw [addToQueue, if_neg hp]
  refine ⟨?_, ?_, ?_⟩
  · intro a b hab
    rcases hab with ⟨imgs, rfl⟩ | ⟨st, rfl⟩ | ⟨bb, rfl⟩
    · exact Step.setSourceImages a imgs
    · exact Step.setSettings a st
    · exact Step.setImageMode a bb
  · refine ⟨({ id := id, prompt := prompt,
               settings := applyOverride c.state.liveSettings o,
               sourceImages :=
                 if c.state.isImageMode then c.state.liveSourceImages else [],
               status := .pending, timestamp := ts,
               error := none } : QueueItem), ?_, rfl, rfl, rfl⟩
    rw [he]
    exact List.mem_append_right _ (List.mem_singleton.mpr rfl)
  · intro c2 hc2
    have hqeq : c2.state.queue = (addToQueue c.state id prompt o ts).queue := by
      induction hc2 with
      | refl => rfl
      | tail hsteps hstep ih =>
        rcases hstep with ⟨imgs, rfl⟩ | ⟨st, rfl⟩ | ⟨bb, rfl⟩ <;> exact ih
    refine ⟨hqeq, ?_⟩
    intro item hitem hitemid
    rw [hqeq, he] at hitem
    rcases List.mem_append.mp hitem with hleft | hright
    · exact absurd (hitemid ▸ List.mem_map.mpr ⟨item, hleft, rfl⟩) hid
    · rcases List.mem_singleton.mp hright with rfl
      rfl

/-- Witness for C3: in a configuration whose live source images are
[A, B] with image mode on, a job is enqueued, the live list is then
mutated to [A, B, C], and the job is still dispatched with exactly
([A, B], its prompt, its snapshot settings). -/
theorem snapshot_isolation_witness :
    dispatchArgs { id := "j1", prompt := "edit",
                   settings := applyOverride demoSettings noOverride,
                   sourceImages := ["A", "B"], status := .pending,
                   timestamp := 0, error := none } =
      (["A", "B"], "edit", applyOverride demoSettings noOverride) := by
  have hp : ¬ (jsTrim "edit" = "") := by decide
  have h := (snapshot_isolation demoConfig "j1" "edit" noOverride 0
      hp (by decide)).2.2 _
      (Relation.ReflTransGen.single (Or.inl ⟨["A", "B", "C"], rfl⟩))
  have hmem : ({ id := "j1", prompt := "edit",
                 settings := applyOverride demoSettings noOverride,
                 sourceImages := ["A", "B"], status := .pending,
                 timestamp := 0, error := none } : QueueItem) ∈
      (addToQueue demoConfig.state "j1" "edit" noOverride 0).queue := by
    rw [addToQueue, if_neg hp]
    exact List.mem_append_right _ (List.mem_singleton.mpr rfl)
  refine h.2 _ ?_ rfl
  rw [h.1]
  exact hmem
/-- C4: when a dispatched job's gateway call fails, exactly that job's
queue entry is set to `failed` with the message stored on it; the queue
keeps its length (the job remains), every other job is present unchanged,
the results collection and the pending backlog are untouched, two
failures of distinct jobs commute (order of completion is irrelevant),
and erasing one dispatch from the in-flight list keeps every other
dispatch.  The hypothesis that entries carrying the failed job's id are
`processing` reflects that a dispatched job was marked `processing` at
admission. -/
theorem failure_isolation (s : AppState) (item : QueueItem) (msg : String)
    (hproc : ∀ j ∈ s.queue, j.id = item.id → j.status = .processing) :
    (∀ j ∈ s.queue, j.id = item.id →
      ({ j with status := Status.failed, error := some msg } : QueueItem)
        ∈ (failState s item msg).queue) ∧
    (failState s item msg).queue.length = s.queue.length ∧
    (∀ j ∈ s.queue, j.id ≠ item.id → j ∈ (failState s item msg).queue) ∧
    (failState s item msg).generatedImages = s.generatedImages ∧
    (failState s item msg).queue.filter (fun i => i.status = .pending)
      = s.queue.filter (fun i => i.status = .pending) ∧
    (failState s item msg).globalError = some msg ∧
    (∀ (item2 : QueueItem) (msg2 : String), item2.id ≠ item.id →
      (failState (failState s item msg) item2 msg2).queue
        = (failState (failState s item2 msg2) item msg).queue) ∧
    (∀ fl : List QueueItem, ∀ x ∈ fl, x ≠ item → x ∈ fl.erase item) := by
  refine ⟨?_, ?_, ?_, rfl, ?_, rfl, ?_, ?_⟩
  · intro j hj hid
    have : (if j.id = item.id then
        ({ j with status := Status.failed, error := some msg } : QueueItem)
        else j) = { j with status := Status.failed, error := some msg } :=
      if_pos hid
    exact this ▸ List.mem_map_of_mem _ hj
  · exact List.length_map s.queue _
  · intro j hj hid
    have : (if j.id = item.id then
        ({ j with status := Status.failed, error := some msg } : QueueItem)
        else j) = j := if_neg hid
    exact this ▸ List.mem_map_of_mem _ hj
  · show (s.queue.map fun i => if i.id = item.id then
        ({ i with status := Status.failed, error := some msg } : QueueItem)
        else i).filter (fun i => i.status = .pending)
      = s.queue.filter (fun i => i.status = .pending)
    rw [List.filter_map]
    have hcong : s.queue.filter
        ((fun i => decide (i.status = Status.pending)) ∘ fun i =>
          if i.id = item.id then
            ({ i with status := Status.failed, error := some msg } : QueueItem)
          else i)
        = s.queue.filter (fun i => i.status = .pending) := by
      apply List.filter_congr
      intro j hj
      by_cases hid : j.id = item.id
      · have hps := hproc j hj hid
        simp [Function.comp, hid, hps]
      · simp [Function.comp, hid]
    rw [hcong]
    have hident : ∀ j ∈ s.queue.filter (fun i => i.status = .pending),
        (if j.id = item.id then
          ({ j with status := Status.failed, error := some msg } : QueueItem)
          else j) = j := by
      intro j hj
      have hmf := List.mem_filter.mp hj
      have hpend : j.status = Status.pending := by simpa using hmf.2
      have hid : ¬ (j.id = item.id) := by
        intro hid
        have := hproc j hmf.1 hid
        rw [hpend] at this
        cases this
      exact if_neg hid
    rw [List.map_congr_left hident, List.map_id']
  · intro item2 msg2 hne
    show ((s.queue.map _).map _) = ((s.queue.map _).map _)
    rw [List.map_map, List.map_map]
    apply List.map_congr_left
    intro j _
    by_cases h1 : j.id = item.id
    · have h2 : ¬ (j.id = item2.id) := fun h => hne (h.symm.trans h1)
      have h3 : ¬ (item.id = item2.id) := fun h => hne h.symm
      simp [Function.comp, h1, h2, h3]
    · by_cases h2 : j.id = item2.id
      · simp [Function.comp, h1, h2, hne]
      · simp [Function.comp, h1, h2]
  · intro fl x hx hne
    exact (List.mem_erase_of_ne hne).mpr hx

/-- Witness for C4: failing job "a" in a state with jobs "a","b"
processing and "c" pending marks exactly "a" failed with the message,
keeps "b" untouched, and leaves the pending backlog unchanged. -/
theorem failure_isolation_witness :
    ({ (demoJob "a" Status.processing) with
       status := Status.failed, error := some "boom" } : QueueItem)
      ∈ (failState demoState (demoJob "a" .processing) "boom").queue ∧
    demoJob "b" .processing
      ∈ (failState demoState (demoJob "a" .processing) "boom").queue ∧
    (failState demoState (demoJob "a" .processing) "boom").queue.filter
        (fun i => i.status = .pending)
      = demoState.queue.filter (fun i => i.status = .pending) := by
  have h := failure_isolation demoState (demoJob "a" .processing) "boom"
    (by decide)
  exact ⟨h.1 _ (by decide) rfl, h.2.2.1 _ (by decide) (by decide),
    h.2.2.2.2.1⟩

/-- C10: cancelling a job only removes it from the queue — the in-flight
gateway call is not aborted (cancel leaves `inFlight` unchanged and
touches neither results nor text), the success continuation of the
already-dispatched job is still a program step, and when it fires the
returned images are still prepended to the results and nonempty text is
still surfaced; only the queue-removal filter becomes a no-op. -/
theorem cancel_inflight_result (c : Config) (item : QueueItem)
    (ids urls : List String) (text : String) (ts : Nat)
    (hin : item ∈ c.inFlight)
    (hgone : item.id ∉ c.state.queue.map QueueItem.id) :
    (∀ id, Step c ⟨cancelState c.state id, c.inFlight⟩ ∧
      (cancelState c.state id).generatedImages = c.state.generatedImages ∧
      (cancelState c.state id).textResponse = c.state.textResponse) ∧
    Step c ⟨completeState c.state item ids urls text ts, c.inFlight.erase item⟩ ∧
    (urls ≠ [] →
      (completeState c.state item ids urls text ts).generatedImages
        = mkResults item ids urls ts ++ c.state.generatedImages) ∧
    (text ≠ "" →
      (completeState c.state item ids urls text ts).textResponse = some text) ∧
    (completeState c.state item ids urls text ts).queue = c.state.queue := by
  refine ⟨?_, Step.complete c item ids urls text ts hin, ?_, ?_, ?_⟩
  · intro id
    exact ⟨Step.cancel c id, rfl, rfl⟩
  · intro hurls
    show (if urls.length > 0 then mkResults item ids urls ts
          ++ c.state.generatedImages else c.state.generatedImages)
      = mkResults item ids urls ts ++ c.state.generatedImages
    rw [if_pos (List.length_pos.mpr hurls)]
  · intro htext
    show (if text ≠ "" then some text else c.state.textResponse) = some text
    rw [if_pos htext]
  · show c.state.queue.filter (fun i => i.id ≠ item.id) = c.state.queue
    rw [List.filter_eq_self]
    intro a ha
    simp only [decide_eq_true_eq, ne_eq]
    intro haid
    exact hgone (haid ▸ List.mem_map.mpr ⟨a, ha, rfl⟩)

/-- Witness for C10: job "a" is in flight but already cancelled (absent
from the queue); its success still prepends the returned image and
surfaces the text, and the queue is unchanged. -/
theorem cancel_inflight_result_witness :
    (completeState demoConfig2.state (demoJob "a" .processing)
        ["r1"] ["u1"] "note" 5).generatedImages
      = mkResults (demoJob "a" .processing) ["r1"] ["u1"] 5
        ++ demoConfig2.state.generatedImages ∧
    (completeState demoConfig2.state (demoJob "a" .processing)
        ["r1"] ["u1"] "note" 5).textResponse = some "note" ∧
    (completeState demoConfig2.state (demoJob "a" .processing)
        ["r1"] ["u1"] "note" 5).queue = demoConfig2.state.queue := by
  have h := cancel_inflight_result demoConfig2 (demoJob "a" .processing)
    ["r1"] ["u1"] "note" 5 (by decide) (by decide)
  exact ⟨h.2.2.1 (by decide), h.2.2.2.1 (by decide), h.2.2.2.2⟩

end Nanoedit
